import Mathlib

/-!
# Verification of the rocRAND device-side Poisson samplers

Shallow embedding of `library/include/rocrand_poisson.h`.

Doubles are modelled as real numbers (ideal real arithmetic).  A generator
state is modelled as two draw streams (uniform and normal) together with a
cursor into each; the two primitives `rocrand_uniform_double` and
`rocrand_normal_double` (external collaborators in the design) return the
next stream element and advance the corresponding cursor.  The C `while`
loops have no a-priori bound, so each loop takes a fuel argument and returns
`none` when the fuel runs out with the loop condition still true; a result
`some _` is a result the C code actually returns after that many iterations.
-/

namespace RocrandPoisson

/-- A generator state: the stream of values the uniform primitive will
return, the stream the normal primitive will return, and the position of
the next unread element of each. -/
structure State where
  uniforms : ℕ → ℝ
  normals : ℕ → ℝ
  ui : ℕ
  ni : ℕ

/-- `rocrand_uniform_double(state)`: the next uniform draw; advances the
uniform cursor. -/
def rocrand_uniform_double (s : State) : ℝ × State :=
  (s.uniforms s.ui, { s with ui := s.ui + 1 })

/-- `rocrand_normal_double(state)`: the next normal draw; advances the
normal cursor. -/
def rocrand_normal_double (s : State) : ℝ × State :=
  (s.normals s.ni, { s with ni := s.ni + 1 })

/-- The state after one uniform draw. -/
def advU (s : State) : State := { s with ui := s.ui + 1 }

/-- The state after one normal draw. -/
def advN (s : State) : State := { s with ni := s.ni + 1 }

/-- `static_cast<unsigned int>` applied to an integral quantity, with the
wraparound modulo 2^32 that the design notes describe for out-of-range
values. -/
def castU (z : ℤ) : ℕ := (z % 4294967296).toNat

/-- `constexpr double lambda_threshold_small = 64.0` (rocrand_poisson.h:43). -/
noncomputable def lambda_threshold_small : ℝ := 64

/-- `constexpr double lambda_threshold_huge = 4000.0` (rocrand_poisson.h:44). -/
noncomputable def lambda_threshold_huge : ℝ := 4000

/-- The `ROCRAND_PI_DOUBLE` constant, modelled as the real pi. -/
noncomputable def ROCRAND_PI_DOUBLE : ℝ := Real.pi

/-- The do/while loop of `poisson_distribution_small` (rocrand_poisson.h:56-61):
each iteration increments `k`, multiplies `product` by a fresh uniform draw,
and continues while `product > limit`. -/
noncomputable def smallLoop (limit : ℝ) : ℕ → ℝ → ℕ → State → Option (ℕ × State)
  | 0, _, _, _ => none
  | fuel + 1, product, k, s =>
    let d := rocrand_uniform_double s
    let k' := k + 1
    let product' := product * d.1
    if product' > limit then smallLoop limit fuel product' k' d.2
    else some (k' - 1, d.2)

/-- `poisson_distribution_small` (rocrand_poisson.h:48-64): Knuth's method,
`limit = exp(-lambda)`, running product starting at 1, counter starting
at 0, returns `k - 1`. -/
noncomputable def poisson_distribution_small (fuel : ℕ) (s : State) (lambda : ℝ) :
    Option (ℕ × State) :=
  let limit := Real.exp (-lambda)
  smallLoop limit fuel 1 0 s

/-- C `lgamma`, on the positive reals where it is `log ∘ Gamma`. -/
noncomputable def lgamma (x : ℝ) : ℝ := Real.log (Real.Gamma x)

/-- `log_factorial` (rocrand_poisson.h:66-70): `0` for `n <= 1`, else
`lgamma(n + 1)`. -/
noncomputable def log_factorial (n : ℝ) : ℝ :=
  if n ≤ 1 then 0 else lgamma (n + 1)

/-- The `while(true)` rejection loop of `poisson_distribution_large`
(rocrand_poisson.h:84-102), with the per-call constants as parameters. -/
noncomputable def largeLoop (lambda c beta alpha k log_lambda : ℝ) :
    ℕ → State → Option (ℕ × State)
  | 0, _ => none
  | fuel + 1, s =>
    let du := rocrand_uniform_double s
    let u := du.1
    let x := (alpha - Real.log ((1 - u) / u)) / beta
    let n : ℤ := ⌊x + 0.5⌋
    if n < 0 then largeLoop lambda c beta alpha k log_lambda fuel du.2
    else
      let dv := rocrand_uniform_double du.2
      let v := dv.1
      let y := alpha - beta * x
      let t := 1 + Real.exp y
      let lhs := y + Real.log (v / (t * t))
      let rhs := k + (n : ℝ) * log_lambda - log_factorial (n : ℝ)
      if lhs ≤ rhs then some (castU n, dv.2)
      else largeLoop lambda c beta alpha k log_lambda fuel dv.2

/-- `poisson_distribution_large` (rocrand_poisson.h:74-103): Atkinson's
rejection method PA, with its five precomputed constants. -/
noncomputable def poisson_distribution_large (fuel : ℕ) (s : State) (lambda : ℝ) :
    Option (ℕ × State) :=
  let c := 0.767 - 3.36 / lambda
  let beta := ROCRAND_PI_DOUBLE / Real.sqrt (3 * lambda)
  let alpha := beta * lambda
  let k := Real.log c - lambda - Real.log beta
  let log_lambda := Real.log lambda
  largeLoop lambda c beta alpha k log_lambda fuel s

/-- `poisson_distribution_huge` (rocrand_poisson.h:107-113): one normal
draw `n`, result `round(sqrt(lambda) * n + lambda)` cast to unsigned. -/
noncomputable def poisson_distribution_huge (s : State) (lambda : ℝ) : ℕ × State :=
  let d := rocrand_normal_double s
  (castU (round (Real.sqrt lambda * d.1 + lambda)), d.2)

/-- `poisson_distribution` (rocrand_poisson.h:117-131): the standard-policy
dispatcher. -/
noncomputable def poisson_distribution (fuel : ℕ) (s : State) (lambda : ℝ) :
    Option (ℕ × State) :=
  if lambda < lambda_threshold_small then poisson_distribution_small fuel s lambda
  else if lambda ≤ lambda_threshold_huge then poisson_distribution_large fuel s lambda
  else some (poisson_distribution_huge s lambda)

/-- The chunk survival factor `L` of `poisson_itr` (rocrand_poisson.h:146-149):
`if (lambda > upow) L = ex; else L = exp(pow - lambda)`.  Note that the
caller inside `poisson_itr` passes the `upow` variable, which the C code
computes once before the loop and never updates. -/
noncomputable def itr_chunk_L (lambda upow pow ex : ℝ) : ℝ :=
  if lambda > upow then ex else Real.exp (pow - lambda)

/-- The inner `while (u > y)` loop of `poisson_itr` (rocrand_poisson.h:154-159):
while `u > y`, increment `k`, multiply `x` by `lambda / k`, add `x` to `y`. -/
noncomputable def itrInner (lambda u : ℝ) : ℕ → ℝ → ℝ → ℕ → Option (ℝ × ℝ × ℕ)
  | 0, x, y, k => if u > y then none else some (x, y, k)
  | fuel + 1, x, y, k =>
    if u > y then
      let k' := k + 1
      let x' := x * (lambda / (k' : ℝ))
      itrInner lambda u fuel x' (y + x') k'
    else some (x, y, k)

/-- The outer do/while loop of `poisson_itr` (rocrand_poisson.h:145-160):
compute `L`, fold it into `x` and `y`, advance `pow` by 500, run the inner
loop, and continue while `pow < lambda`.  `upow` and `ex` are the values the
C code computed once before the loop. -/
noncomputable def itrOuter (lambda upow ex u : ℝ) (innerFuel : ℕ) :
    ℕ → ℝ → ℝ → ℕ → ℝ → Option ℕ
  | 0, _, _, _, _ => none
  | fuel + 1, x, y, k, pow =>
    let L := itr_chunk_L lambda upow pow ex
    let x' := x * L
    let y' := y * L
    let pow' := pow + 500
    match itrInner lambda u innerFuel x' y' k with
    | none => none
    | some (x2, y2, k2) =>
      if pow' < lambda then itrOuter lambda upow ex u innerFuel fuel x2 y2 k2 pow'
      else some k2

/-- `poisson_itr` (rocrand_poisson.h:135-162): draws one uniform `u`, sets
`x = y = 1`, `k = 0`, `pow = 0`, `upow = pow + 500`, `ex = exp(-500)`, and
runs the chunked outer/inner loops, returning `k`. -/
noncomputable def poisson_itr (outerFuel innerFuel : ℕ) (s : State) (lambda : ℝ) :
    Option (ℕ × State) :=
  let x : ℝ := 1
  let y : ℝ := 1
  let k : ℕ := 0
  let pow : ℝ := 0
  let d := rocrand_uniform_double s
  let upow : ℝ := pow + 500
  let ex : ℝ := Real.exp (-500)
  match itrOuter lambda upow ex d.1 innerFuel outerFuel x y k pow with
  | none => none
  | some k2 => some (k2, d.2)

/-- `_poisson_distribution` (rocrand_poisson.h:166-176): the chunked-policy
dispatcher. -/
noncomputable def _poisson_distribution (outerFuel innerFuel : ℕ) (s : State)
    (lambda : ℝ) : Option (ℕ × State) :=
  if lambda < 1000 then poisson_itr outerFuel innerFuel s lambda
  else some (poisson_distribution_huge s lambda)

/-- The `rocrand_poisson` overload for `rocrand_state_mtgp32`
(rocrand_poisson.h:272-275). -/
noncomputable def rocrand_poisson_mtgp32 (outerFuel innerFuel : ℕ) (s : State)
    (lambda : ℝ) : Option (ℕ × State) :=
  _poisson_distribution outerFuel innerFuel s lambda

/-- The `rocrand_poisson` overload for `rocrand_state_sobol32`
(rocrand_poisson.h:289-292). -/
noncomputable def rocrand_poisson_sobol32 (outerFuel innerFuel : ℕ) (s : State)
    (lambda : ℝ) : Option (ℕ × State) :=
  _poisson_distribution outerFuel innerFuel s lambda

/-- The `rocrand_poisson` overload for `rocrand_state_philox4x32_10`
(rocrand_poisson.h:194-197). -/
noncomputable def rocrand_poisson_philox (fuel : ℕ) (s : State) (lambda : ℝ) :
    Option (ℕ × State) :=
  poisson_distribution fuel s lambda

/-- The CUDA/HIP `uint4` vector type. -/
structure uint4 where
  x : ℕ
  y : ℕ
  z : ℕ
  w : ℕ

/-- `rocrand_poisson4` (rocrand_poisson.h:211-219): a `uint4` built from
four successive `poisson_distribution` calls on the same state (braced-init
lists evaluate left to right, each call advancing the state the next one
reads). -/
noncomputable def rocrand_poisson4 (fuel : ℕ) (s : State) (lambda : ℝ) :
    Option (uint4 × State) :=
  match poisson_distribution fuel s lambda with
  | none => none
  | some (a, s1) =>
    match poisson_distribution fuel s1 lambda with
    | none => none
    | some (b, s2) =>
      match poisson_distribution fuel s2 lambda with
      | none => none
      | some (c, s3) =>
        match poisson_distribution fuel s3 lambda with
        | none => none
        | some (d, s4) => some (⟨a, b, c, d⟩, s4)

/-! ## Spec-side definitions used for comparison -/

/-- The chunk survival factor as section 4.4 of the design describes it:
the precomputed `exp(-500)` constant when the chunk is fully below lambda
(`pow + 500 <= lambda`), else `exp(pow - lambda)` for the final partial
chunk.  Stated from the spec's words, for comparison with `itr_chunk_L`
as the code actually invokes it. -/
noncomputable def itr_chunk_L_spec (lambda pow : ℝ) : ℝ :=
  if pow + 500 ≤ lambda then Real.exp (-500) else Real.exp (pow - lambda)

/-- The log-factorial helper as section 4.2 of the design states it: 0 for
n <= 1, else `lgamma(n + 1)`, i.e. `log(Gamma(n + 1))`.  Stated from the
spec's words, for comparison with the code's `log_factorial`. -/
noncomputable def log_factorial_spec (n : ℝ) : ℝ :=
  if n ≤ 1 then 0 else Real.log (Real.Gamma (n + 1))

/-- One iteration of the Large-Lambda sampler as section 4.2 of the design
describes it: with the precomputed constants `c = 0.767 - 3.36/lambda`,
`beta = pi/sqrt(3*lambda)`, `alpha = beta*lambda`,
`k = log(c) - lambda - log(beta)` and `log_lambda = log(lambda)`, draw
uniform u, form `x = (alpha - log((1-u)/u))/beta` and `n = floor(x + 0.5)`;
if n < 0, reject having consumed only that one draw; otherwise draw uniform
v, set `y = alpha - beta*x` and `t = 1 + exp(y)`, and accept (returning n
as an unsigned integer) iff
`y + log(v/t^2) <= k + n*log_lambda - log_factorial(n)`.  Stated from the
spec's words, for comparison with the code's `poisson_distribution_large`. -/
noncomputable def poisson_large_step_spec (lambda : ℝ) (s : State) : Option ℕ × State :=
  let c := 0.767 - 3.36 / lambda
  let beta := Real.pi / Real.sqrt (3 * lambda)
  let alpha := beta * lambda
  let k := Real.log c - lambda - Real.log beta
  let log_lambda := Real.log lambda
  let u := s.uniforms s.ui
  let x := (alpha - Real.log ((1 - u) / u)) / beta
  let n : ℤ := ⌊x + 0.5⌋
  if n < 0 then (none, advU s)
  else
    let v := s.uniforms (s.ui + 1)
    let y := alpha - beta * x
    let t := 1 + Real.exp y
    if y + Real.log (v / t ^ 2) ≤ k + (n : ℝ) * log_lambda - log_factorial_spec (n : ℝ)
    then (some (castU n), advU (advU s))
    else (none, advU (advU s))

/-! ## Concrete states used by witnesses -/

/-- A concrete generator state: uniform stream constantly 1/4, normal
stream constantly 0. -/
noncomputable def wState : State := ⟨fun _ => 1 / 4, fun _ => 0, 0, 0⟩

/-- A concrete generator state: uniform stream constantly 0, normal
stream constantly 0. -/
noncomputable def sZero : State := ⟨fun _ => 0, fun _ => 0, 0, 0⟩

/-- A concrete generator state: uniform stream constantly 3/5, normal
stream constantly 0. -/
noncomputable def sItr : State := ⟨fun _ => 3 / 5, fun _ => 0, 0, 0⟩

/-! ## Loop step equations -/

/-- One unfolding of `smallLoop` at fuel 0. -/
theorem smallLoop_zero (limit p : ℝ) (k0 : ℕ) (s : State) :
    smallLoop limit 0 p k0 s = none := rfl

/-- One unfolding of `smallLoop` at successor fuel. -/
theorem smallLoop_succ (limit p : ℝ) (f k0 : ℕ) (s : State) :
    smallLoop limit (f + 1) p k0 s =
      if p * s.uniforms s.ui > limit then
        smallLoop limit f (p * s.uniforms s.ui) (k0 + 1) { s with ui := s.ui + 1 }
      else some (k0 + 1 - 1, { s with ui := s.ui + 1 }) := rfl

/-- One unfolding of `largeLoop` at fuel 0. -/
theorem largeLoop_zero (lambda c beta alpha k log_lambda : ℝ) (s : State) :
    largeLoop lambda c beta alpha k log_lambda 0 s = none := rfl

/-- One unfolding of `largeLoop` at successor fuel. -/
theorem largeLoop_succ (lambda c beta alpha k log_lambda : ℝ) (f : ℕ) (s : State) :
    largeLoop lambda c beta alpha k log_lambda (f + 1) s =
      (let u := s.uniforms s.ui
       let x := (alpha - Real.log ((1 - u) / u)) / beta
       let n : ℤ := ⌊x + 0.5⌋
       if n < 0 then largeLoop lambda c beta alpha k log_lambda f { s with ui := s.ui + 1 }
       else
         let v := s.uniforms (s.ui + 1)
         let y := alpha - beta * x
         let t := 1 + Real.exp y
         if y + Real.log (v / (t * t)) ≤ k + (n : ℝ) * log_lambda - log_factorial (n : ℝ)
         then some (castU n, { s with ui := s.ui + 1 + 1 })
         else largeLoop lambda c beta alpha k log_lambda f { s with ui := s.ui + 1 + 1 }) := rfl

/-- One unfolding of `itrInner` at fuel 0. -/
theorem itrInner_zero (lambda u x y : ℝ) (k : ℕ) :
    itrInner lambda u 0 x y k = if u > y then none else some (x, y, k) := rfl

/-- One unfolding of `itrInner` at successor fuel. -/
theorem itrInner_succ (lambda u x y : ℝ) (f k : ℕ) :
    itrInner lambda u (f + 1) x y k =
      if u > y then
        itrInner lambda u f (x * (lambda / ((k + 1 : ℕ) : ℝ)))
          (y + x * (lambda / ((k + 1 : ℕ) : ℝ))) (k + 1)
      else some (x, y, k) := rfl

/-- One unfolding of `itrOuter` at fuel 0. -/
theorem itrOuter_zero (lambda upow ex u : ℝ) (inf : ℕ) (x y : ℝ) (k : ℕ) (pow : ℝ) :
    itrOuter lambda upow ex u inf 0 x y k pow = none := rfl

/-- One unfolding of `itrOuter` at successor fuel. -/
theorem itrOuter_succ (lambda upow ex u : ℝ) (inf f : ℕ) (x y : ℝ) (k : ℕ) (pow : ℝ) :
    itrOuter lambda upow ex u inf (f + 1) x y k pow =
      match itrInner lambda u inf (x * itr_chunk_L lambda upow pow ex)
          (y * itr_chunk_L lambda upow pow ex) k with
      | none => none
      | some (x2, y2, k2) =>
        if pow + 500 < lambda then itrOuter lambda upow ex u inf f x2 y2 k2 (pow + 500)
        else some k2 := rfl

/-! ## Draw accounting helpers -/

/-- The product of the next `k` uniform draws of `s`. -/
noncomputable def prodU (s : State) (k : ℕ) : ℝ :=
  ∏ i in Finset.range k, s.uniforms (s.ui + i)

/-- Splitting the first draw off the product of the next `m + 1` draws. -/
theorem prodU_succ (s : State) (m : ℕ) :
    prodU s (m + 1) = s.uniforms s.ui * prodU { s with ui := s.ui + 1 } m := by
  unfold prodU
  rw [Finset.prod_range_succ']
  simp only [add_zero]
  rw [mul_comm]
  congr 1
  apply Finset.prod_congr rfl
  intro i _
  congr 1
  omega

/-- The do/while loop of the Small-Lambda sampler stops at the first draw
count `m` at which the running product no longer exceeds the limit: it then
returns counter `k0 + m` minus one, having consumed exactly `m` draws. -/
theorem smallLoop_first_crossing (limit : ℝ) :
    ∀ (fuel m k0 : ℕ) (p : ℝ) (s : State), 1 ≤ m → m ≤ fuel →
      p * prodU s m ≤ limit →
      (∀ j, 1 ≤ j → j < m → limit < p * prodU s j) →
      smallLoop limit fuel p k0 s = some (k0 + m - 1, { s with ui := s.ui + m }) := by
  intro fuel
  induction fuel with
  | zero =>
    intro m k0 p s h1 h2 _ _
    omega
  | succ f ih =>
    intro m k0 p s hm hfuel hstop hmin
    rw [smallLoop_succ]
    rcases Nat.lt_or_ge m 2 with hm1 | hm2
    · -- m = 1: the first product already fails to exceed the limit
      have hm1 : m = 1 := by omega
      subst hm1
      have h1 : prodU s 1 = s.uniforms s.ui := by
        unfold prodU
        rw [Finset.prod_range_one, add_zero]
      rw [if_neg (by rw [← h1]; exact not_lt.mpr hstop)]
    · -- m ≥ 2: the first product still exceeds the limit, recurse
      have hgt : limit < p * s.uniforms s.ui := by
        have := hmin 1 le_rfl (by omega)
        have h1 : prodU s 1 = s.uniforms s.ui := by
          unfold prodU
          rw [Finset.prod_range_one, add_zero]
        rwa [h1] at this
      rw [if_pos hgt]
      obtain ⟨m2, rfl⟩ : ∃ m2, m = m2 + 1 := ⟨m - 1, by omega⟩
      have hres := ih m2 (k0 + 1) (p * s.uniforms s.ui) { s with ui := s.ui + 1 }
        (by omega) (by omega)
        (by rw [mul_assoc, ← prodU_succ]; exact hstop)
        (by
          intro j hj1 hj2
          rw [mul_assoc, ← prodU_succ]
          exact hmin (j + 1) (by omega) (by omega))
      rw [hres]
      simp only [Option.some.injEq, Prod.mk.injEq]
      refine ⟨by omega, ?_⟩
      have hui : s.ui + 1 + m2 = s.ui + (m2 + 1) := by omega
      rw [hui]

/-! ## Chunked-sampler accumulator invariants -/

/-- The partial Poisson series sum `∑_{i ≤ k} lambda^i / i!`. -/
noncomputable def pSum (lambda : ℝ) (k : ℕ) : ℝ :=
  ∑ i in Finset.range (k + 1), lambda ^ i / (Nat.factorial i : ℝ)

/-- The inner loop's `x` update takes `c * lambda^k / k!` to
`c * lambda^(k+1) / (k+1)!`. -/
theorem chunk_x_step (c lambda : ℝ) (k : ℕ) :
    c * lambda ^ k / (Nat.factorial k : ℝ) * (lambda / ((k + 1 : ℕ) : ℝ)) =
      c * lambda ^ (k + 1) / (Nat.factorial (k + 1) : ℝ) := by
  have h1 : (Nat.factorial k : ℝ) ≠ 0 :=
    Nat.cast_ne_zero.mpr (Nat.factorial_ne_zero k)
  have h2 : ((k + 1 : ℕ) : ℝ) ≠ 0 := Nat.cast_ne_zero.mpr (Nat.succ_ne_zero k)
  rw [Nat.factorial_succ]
  push_cast
  field_simp
  ring

/-- The inner loop's `y` update takes `c * pSum lambda k` to
`c * pSum lambda (k+1)`. -/
theorem chunk_y_step (c lambda : ℝ) (k : ℕ) :
    c * pSum lambda k + c * lambda ^ (k + 1) / (Nat.factorial (k + 1) : ℝ) =
      c * pSum lambda (k + 1) := by
  unfold pSum
  conv_rhs => rw [Finset.sum_range_succ]
  ring

/-- Entering the inner loop with `x = c * lambda^k / k!` and
`y = c * pSum lambda k`, any successful exit again has that shape (for the
exit counter). -/
theorem itrInner_shape (lambda u c : ℝ) :
    ∀ (fuel k : ℕ) (x y : ℝ), x = c * lambda ^ k / (Nat.factorial k : ℝ) →
      y = c * pSum lambda k →
      itrInner lambda u fuel x y k = none ∨
      ∃ k2, itrInner lambda u fuel x y k =
        some (c * lambda ^ k2 / (Nat.factorial k2 : ℝ), c * pSum lambda k2, k2) := by
  intro fuel
  induction fuel with
  | zero =>
    intro k x y hx hy
    rw [itrInner_zero]
    by_cases h : u > y
    · left
      rw [if_pos h]
    · right
      exact ⟨k, by rw [if_neg h, hx, hy]⟩
  | succ f ih =>
    intro k x y hx hy
    rw [itrInner_succ]
    by_cases h : u > y
    · rw [if_pos h]
      exact ih (k + 1) _ _ (by rw [hx, chunk_x_step])
        (by rw [hy, hx, chunk_x_step, chunk_y_step])
    · right
      exact ⟨k, by rw [if_neg h, hx, hy]⟩

/-- If `c * pSum lambda m` stays below `u` for every `m`, the inner
`while (u > y)` loop never exits, whatever its fuel: entering with the
shape invariant it always returns `none`. -/
theorem itrInner_no_exit (lambda u c : ℝ) (hb : ∀ m : ℕ, c * pSum lambda m < u) :
    ∀ (fuel k : ℕ) (x y : ℝ), x = c * lambda ^ k / (Nat.factorial k : ℝ) →
      y = c * pSum lambda k →
      itrInner lambda u fuel x y k = none := by
  intro fuel
  induction fuel with
  | zero =>
    intro k x y _ hy
    rw [itrInner_zero, if_pos (by rw [hy]; exact hb k)]
  | succ f ih =>
    intro k x y hx hy
    rw [itrInner_succ, if_pos (by rw [hy]; exact hb k)]
    exact ih (k + 1) _ _ (by rw [hx, chunk_x_step])
      (by rw [hy, hx, chunk_x_step, chunk_y_step])

/-- After the stale second chunk multiplication the cumulative mass is
capped by `exp(-1000) * exp(700) = exp(-300)`, which is below the drawn
threshold 3/5. -/
theorem chunk_bound_700 (m : ℕ) :
    Real.exp (-500) * Real.exp (-500) * pSum 700 m < 3 / 5 := by
  have h2 : Real.exp (-500) * Real.exp (-500) = Real.exp (-1000) := by
    rw [← Real.exp_add]
    norm_num
  have h1 : pSum 700 m ≤ Real.exp 700 := by
    unfold pSum
    exact Real.sum_le_exp_of_nonneg (by norm_num) (m + 1)
  have h3 : Real.exp (-1000) * pSum 700 m ≤ Real.exp (-1000) * Real.exp 700 :=
    mul_le_mul_of_nonneg_left h1 (Real.exp_pos _).le
  have h4 : Real.exp (-1000) * Real.exp 700 = Real.exp (-300) := by
    rw [← Real.exp_add]
    norm_num
  have h5 : Real.exp (-300) ≤ Real.exp (-1) := Real.exp_le_exp.mpr (by norm_num)
  have h6 : Real.exp (-1) < 3 / 5 := lt_trans Real.exp_neg_one_lt_d9 (by norm_num)
  rw [h2]
  calc Real.exp (-1000) * pSum 700 m ≤ Real.exp (-300) := by rw [← h4]; exact h3
    _ ≤ Real.exp (-1) := h5
    _ < 3 / 5 := h6

/-! ## Non-negativity of the quantities cast to unsigned -/

/-- Every value the small-sampler loop returns is `m - 1` for a counter
`m` strictly above the entry counter; entering at 0, the exit counter is
at least 1, so the decrement never wraps. -/
theorem smallLoop_counter_pos (limit : ℝ) :
    ∀ (fuel : ℕ) (p : ℝ) (k0 : ℕ) (s : State),
      smallLoop limit fuel p k0 s = none ∨
      ∃ m s2, k0 < m ∧ smallLoop limit fuel p k0 s = some (m - 1, s2) := by
  intro fuel
  induction fuel with
  | zero =>
    intro p k0 s
    left
    rfl
  | succ f ih =>
    intro p k0 s
    rw [smallLoop_succ]
    by_cases h : p * s.uniforms s.ui > limit
    · rw [if_pos h]
      rcases ih (p * s.uniforms s.ui) (k0 + 1) { s with ui := s.ui + 1 } with
        hnone | ⟨m, s2, hm, hsome⟩
      · left
        exact hnone
      · right
        exact ⟨m, s2, by omega, hsome⟩
    · right
      exact ⟨k0 + 1, { s with ui := s.ui + 1 }, Nat.lt_succ_self k0, by rw [if_neg h]⟩

/-- Every value the large-sampler loop returns is the unsigned cast of a
candidate `n` that already passed the `n < 0` rejection. -/
theorem largeLoop_nonneg_cast (lambda c beta alpha k log_lambda : ℝ) :
    ∀ (fuel : ℕ) (s : State),
      largeLoop lambda c beta alpha k log_lambda fuel s = none ∨
      ∃ (n : ℤ) (s2 : State), 0 ≤ n ∧
        largeLoop lambda c beta alpha k log_lambda fuel s = some (castU n, s2) := by
  intro fuel
  induction fuel with
  | zero =>
    intro s
    left
    rfl
  | succ f ih =>
    intro s
    rw [largeLoop_succ]
    dsimp only
    by_cases hneg :
        (⌊(alpha - Real.log ((1 - s.uniforms s.ui) / s.uniforms s.ui)) / beta + 0.5⌋ : ℤ) < 0
    · rw [if_pos hneg]
      exact ih { s with ui := s.ui + 1 }
    · rw [if_neg hneg]
      set n : ℤ :=
        ⌊(alpha - Real.log ((1 - s.uniforms s.ui) / s.uniforms s.ui)) / beta + 0.5⌋ with hn
      by_cases hacc :
          alpha - beta * ((alpha - Real.log ((1 - s.uniforms s.ui) / s.uniforms s.ui)) / beta) +
            Real.log (s.uniforms (s.ui + 1) /
              ((1 + Real.exp (alpha - beta *
                  ((alpha - Real.log ((1 - s.uniforms s.ui) / s.uniforms s.ui)) / beta))) *
                (1 + Real.exp (alpha - beta *
                  ((alpha - Real.log ((1 - s.uniforms s.ui) / s.uniforms s.ui)) / beta))))) ≤
            k + (n : ℝ) * log_lambda - log_factorial (n : ℝ)
      · rw [if_pos hacc]
        exact Or.inr ⟨n, { s with ui := s.ui + 1 + 1 }, not_lt.mp hneg, rfl⟩
      · rw [if_neg hacc]
        exact ih { s with ui := s.ui + 1 + 1 }

/-! ## Claims -/

/-- C1: the standard-policy dispatcher `poisson_distribution` routes
exactly by lambda: below 64.0 it returns the Small-Lambda (Knuth)
sampler's result, between 64.0 and 4000.0 inclusive the Large-Lambda
(Atkinson) sampler's result, and above 4000.0 the Huge-Lambda
(normal-approximation) sampler's result, each invoked on the same state
unchanged. -/
theorem poisson_distribution_routes_by_lambda (fuel : ℕ) (s : State) (lambda : ℝ) :
    (lambda < 64 →
      poisson_distribution fuel s lambda = poisson_distribution_small fuel s lambda) ∧
    (64 ≤ lambda ∧ lambda ≤ 4000 →
      poisson_distribution fuel s lambda = poisson_distribution_large fuel s lambda) ∧
    (4000 < lambda →
      poisson_distribution fuel s lambda = some (poisson_distribution_huge s lambda)) := by
  unfold poisson_distribution lambda_threshold_small lambda_threshold_huge
  refine ⟨fun h => ?_, fun h => ?_, fun h => ?_⟩
  · rw [if_pos h]
  · rw [if_neg (by linarith [h.1]), if_pos h.2]
  · rw [if_neg (by linarith), if_neg (by linarith)]

/-- Witness for C1: the three routes taken at lambda = 32, 100 and 5000. -/
theorem poisson_distribution_routes_by_lambda_witness :
    poisson_distribution 1 wState 32 = poisson_distribution_small 1 wState 32 ∧
    poisson_distribution 1 wState 100 = poisson_distribution_large 1 wState 100 ∧
    poisson_distribution 1 wState 5000 = some (poisson_distribution_huge wState 5000) :=
  ⟨(poisson_distribution_routes_by_lambda 1 wState 32).1 (by norm_num),
   (poisson_distribution_routes_by_lambda 1 wState 100).2.1 ⟨by norm_num, by norm_num⟩,
   (poisson_distribution_routes_by_lambda 1 wState 5000).2.2 (by norm_num)⟩

/-- C2: the chunked-policy dispatcher `_poisson_distribution`, which the
MTGP32 and SOBOL32 `rocrand_poisson` overloads call, invokes the
Iterative-Chunked sampler `poisson_itr` for lambda below 1000.0 and the
Huge-Lambda sampler at or above 1000.0 (in particular at exactly 1000.0),
returning the invoked sampler's result unchanged. -/
theorem chunked_dispatcher_routes_by_lambda (of inf : ℕ) (s : State) (lambda : ℝ) :
    rocrand_poisson_mtgp32 of inf s lambda = _poisson_distribution of inf s lambda ∧
    rocrand_poisson_sobol32 of inf s lambda = _poisson_distribution of inf s lambda ∧
    (lambda < 1000 →
      _poisson_distribution of inf s lambda = poisson_itr of inf s lambda) ∧
    (1000 ≤ lambda →
      _poisson_distribution of inf s lambda = some (poisson_distribution_huge s lambda)) ∧
    _poisson_distribution of inf s 1000 = some (poisson_distribution_huge s 1000) := by
  refine ⟨rfl, rfl, fun h => ?_, fun h => ?_, ?_⟩
  · unfold _poisson_distribution
    rw [if_pos h]
  · unfold _poisson_distribution
    rw [if_neg (not_lt.mpr h)]
  · unfold _poisson_distribution
    rw [if_neg (by norm_num)]

/-- Witness for C2: the two routes taken at lambda = 500 and 2000. -/
theorem chunked_dispatcher_routes_by_lambda_witness :
    _poisson_distribution 1 1 wState 500 = poisson_itr 1 1 wState 500 ∧
    _poisson_distribution 1 1 wState 2000 = some (poisson_distribution_huge wState 2000) :=
  ⟨(chunked_dispatcher_routes_by_lambda 1 1 wState 500).2.2.1 (by norm_num),
   (chunked_dispatcher_routes_by_lambda 1 1 wState 2000).2.2.2.1 (by norm_num)⟩

/-- C3 (code bug): at lambda = 700 the code's second outer iteration
(`pow = 500`) computes the chunk survival factor with the stale
`upow = 0 + 500` that was fixed before the loop, so it picks the
precomputed `exp(-500)` although the chunk `[500, 1000]` is the final
partial chunk; the design's factor for that iteration is
`exp(pow - lambda) = exp(-200)`, a different real number. -/
theorem itr_chunk_L_stale_upow_at_700 :
    itr_chunk_L 700 (0 + 500) 500 (Real.exp (-500)) = Real.exp (-500) ∧
    itr_chunk_L_spec 700 500 = Real.exp (-200) ∧
    itr_chunk_L 700 (0 + 500) 500 (Real.exp (-500)) ≠ itr_chunk_L_spec 700 500 := by
  have h1 : itr_chunk_L 700 (0 + 500) 500 (Real.exp (-500)) = Real.exp (-500) := by
    unfold itr_chunk_L
    rw [if_pos (by norm_num)]
  have h2 : itr_chunk_L_spec 700 500 = Real.exp (-200) := by
    unfold itr_chunk_L_spec
    rw [if_neg (by norm_num)]
    norm_num
  refine ⟨h1, h2, ?_⟩
  rw [h1, h2]
  exact ne_of_lt (Real.exp_lt_exp.mpr (by norm_num))

/-- C7: the Huge-Lambda sampler consumes exactly one normal draw (the
uniform cursor is untouched, the normal cursor advances by one) and
returns `round(sqrt(lambda) * z + lambda)` cast to an unsigned integer. -/
theorem poisson_distribution_huge_one_normal_draw (s : State) (lambda : ℝ) :
    poisson_distribution_huge s lambda =
      (castU (round (Real.sqrt lambda * s.normals s.ni + lambda)),
        { s with ni := s.ni + 1 }) := rfl

/-- C9: on every terminating run, `poisson_itr` consumes exactly the one
uniform draw it takes before its loops and nothing else: the returned
state is the input state with the uniform cursor advanced by one (and the
normal cursor untouched). -/
theorem poisson_itr_consumes_one_uniform_draw (of inf : ℕ) (s : State) (lambda : ℝ)
    (_h0 : 0 < lambda) (_h1000 : lambda < 1000) (k : ℕ) (s2 : State)
    (h : poisson_itr of inf s lambda = some (k, s2)) :
    s2 = { s with ui := s.ui + 1 } := by
  simp only [poisson_itr, rocrand_uniform_double] at h
  split at h
  · exact absurd h (by simp)
  · simp only [Option.some.injEq, Prod.mk.injEq] at h
    exact h.2.symm

/-- Witness for C9: at lambda = 1 with first uniform draw 0, the call
returns after one outer iteration and the state it returns is the input
state with the uniform cursor advanced by one. -/
theorem poisson_itr_consumes_one_uniform_draw_witness :
    ({ sZero with ui := 1 } : State) = { sZero with ui := sZero.ui + 1 } :=
  poisson_itr_consumes_one_uniform_draw 1 1 sZero 1 (by norm_num) (by norm_num) 0
    { sZero with ui := 1 }
    (by
      simp only [poisson_itr, itrOuter, itrInner, itr_chunk_L, rocrand_uniform_double, sZero]
      norm_num [(Real.exp_pos (-1)).not_lt])

/-- C10: when four successive single-sample `poisson_distribution` calls
on a state return `a`, `b`, `c`, `d` (threading the state from each call
into the next), `rocrand_poisson4` on that state returns exactly the
`uint4` with components `x = a`, `y = b`, `z = c`, `w = d`, leaving the
state where the fourth call left it. -/
theorem rocrand_poisson4_matches_four_sequential_calls (fuel : ℕ) (s : State)
    (lambda : ℝ) (a b c d : ℕ) (s1 s2 s3 s4 : State)
    (h1 : poisson_distribution fuel s lambda = some (a, s1))
    (h2 : poisson_distribution fuel s1 lambda = some (b, s2))
    (h3 : poisson_distribution fuel s2 lambda = some (c, s3))
    (h4 : poisson_distribution fuel s3 lambda = some (d, s4)) :
    rocrand_poisson4 fuel s lambda = some (⟨a, b, c, d⟩, s4) := by
  simp only [rocrand_poisson4, h1, h2, h3, h4]

/-- Evaluation helper: at lambda = 5000 (huge regime) with normal draws
constantly 0, a single dispatcher call returns 5000 and advances only the
normal cursor. -/
theorem poisson_distribution_wState_5000 (n : ℕ) :
    poisson_distribution 1 { wState with ni := n } 5000 =
      some (5000, { wState with ni := n + 1 }) := by
  unfold poisson_distribution lambda_threshold_small lambda_threshold_huge
  rw [if_neg (by norm_num), if_neg (by norm_num)]
  simp only [poisson_distribution_huge, rocrand_normal_double, castU, wState]
  norm_num [round_ofNat]
  rfl

/-- Witness for C10: four dispatcher calls at lambda = 5000 each return
5000, and `rocrand_poisson4` returns the matching `uint4`. -/
theorem rocrand_poisson4_matches_four_sequential_calls_witness :
    rocrand_poisson4 1 wState 5000 =
      some (⟨5000, 5000, 5000, 5000⟩, { wState with ni := 4 }) :=
  rocrand_poisson4_matches_four_sequential_calls 1 wState 5000 5000 5000 5000 5000
    { wState with ni := 1 } { wState with ni := 2 } { wState with ni := 3 }
    { wState with ni := 4 }
    (poisson_distribution_wState_5000 0) (poisson_distribution_wState_5000 1)
    (poisson_distribution_wState_5000 2) (poisson_distribution_wState_5000 3)

/-- C6: for lambda in (0, 64) and any uniform draws in [0, 1), the
Small-Lambda sampler returns m - 1 where m >= 1 is the number of draws
taken until the running product (starting at 1, one draw multiplied in per
iteration) first fails to exceed exp(-lambda); the call consumes exactly m
uniform draws. -/
theorem poisson_distribution_small_knuth (fuel : ℕ) (s : State) (lambda : ℝ) (m : ℕ)
    (_hl0 : 0 < lambda) (_hl64 : lambda < 64)
    (_hrange : ∀ i, 0 ≤ s.uniforms i ∧ s.uniforms i < 1)
    (hm : 1 ≤ m) (hfuel : m ≤ fuel)
    (hstop : prodU s m ≤ Real.exp (-lambda))
    (hmin : ∀ j, 1 ≤ j → j < m → Real.exp (-lambda) < prodU s j) :
    poisson_distribution_small fuel s lambda =
      some (m - 1, { s with ui := s.ui + m }) := by
  unfold poisson_distribution_small
  have h := smallLoop_first_crossing (Real.exp (-lambda)) fuel m 0 1 s hm hfuel
    (by simpa using hstop)
    (by intro j hj1 hj2; simpa using hmin j hj1 hj2)
  simpa using h

/-- Witness for C6: at lambda = 1 with uniform draws constantly 1/4, the
very first product 1/4 already fails to exceed exp(-1), so the sampler
returns 0 having consumed exactly one draw. -/
theorem poisson_distribution_small_knuth_witness :
    poisson_distribution_small 1 wState 1 =
      some (0, { wState with ui := wState.ui + 1 }) :=
  poisson_distribution_small_knuth 1 wState 1 1 (by norm_num) (by norm_num)
    (fun i => ⟨by norm_num [wState], by norm_num [wState]⟩) le_rfl le_rfl
    (by
      have hp : prodU wState 1 = 1 / 4 := by
        unfold prodU wState
        rw [Finset.prod_range_one]
      rw [hp]
      exact le_of_lt (lt_trans (by norm_num) Real.exp_neg_one_gt_d9))
    (by intro j hj1 hj2; omega)

/-- C5: for lambda in [64, 4000], each iteration of the Large-Lambda
sampler behaves exactly as the design's step: with the claimed precomputed
constants, a rejected negative candidate restarts the loop with only one
draw consumed, and otherwise the sampler returns n as an unsigned integer
if and only if the claimed acceptance inequality holds (else it restarts
with two draws consumed). -/
theorem poisson_distribution_large_atkinson_step (lambda : ℝ) (s : State) (fuel : ℕ)
    (_h64 : 64 ≤ lambda) (_h4000 : lambda ≤ 4000) :
    poisson_distribution_large (fuel + 1) s lambda =
      match poisson_large_step_spec lambda s with
      | (some r, s2) => some (r, s2)
      | (none, s2) => poisson_distribution_large fuel s2 lambda := by
  unfold poisson_distribution_large
  rw [largeLoop_succ]
  unfold poisson_large_step_spec log_factorial log_factorial_spec lgamma
    ROCRAND_PI_DOUBLE advU
  simp only [pow_two]
  split_ifs <;> rfl

/-- Witness for C5: the step equation instantiated at lambda = 100 and a
concrete state. -/
theorem poisson_distribution_large_atkinson_step_witness :
    poisson_distribution_large 1 wState 100 =
      match poisson_large_step_spec 100 wState with
      | (some r, s2) => some (r, s2)
      | (none, s2) => poisson_distribution_large 0 s2 100 :=
  poisson_distribution_large_atkinson_step 100 wState 0 (by norm_num) (by norm_num)

/-- C4 (code bug): at lambda = 700 — inside the (0, 1000) range the chunked
dispatcher routes to `poisson_itr` — with first uniform draw u = 3/5, the
stale `upow` makes the second outer iteration multiply both accumulators by
`exp(-500)` again, capping the cumulative mass `y` below
`exp(-1000) * exp(700) = exp(-300) < u`; the inner `while (u > y)` loop of
that iteration therefore never exits and the call never returns, whatever
fuel both loops are given. -/
theorem poisson_itr_700_never_returns (of inf : ℕ) :
    poisson_itr of inf sItr 700 = none := by
  have hL1 : itr_chunk_L 700 (0 + 500) 0 (Real.exp (-500)) = Real.exp (-500) := by
    unfold itr_chunk_L
    rw [if_pos (by norm_num)]
  have hL2 : itr_chunk_L 700 (0 + 500) (0 + 500) (Real.exp (-500)) = Real.exp (-500) := by
    unfold itr_chunk_L
    rw [if_pos (by norm_num)]
  have hmain : itrOuter 700 (0 + 500) (Real.exp (-500)) (3 / 5) inf of 1 1 0 0 = none := by
    cases of with
    | zero => exact itrOuter_zero 700 (0 + 500) (Real.exp (-500)) (3 / 5) inf 1 1 0 0
    | succ f =>
      show itrOuter 700 (0 + 500) (Real.exp (-500)) (3 / 5) inf (f + 1) 1 1 0 0 = none
      rw [itrOuter_succ, hL1]
      rcases itrInner_shape 700 (3 / 5) (Real.exp (-500)) inf 0 (1 * Real.exp (-500))
          (1 * Real.exp (-500)) (by simp) (by simp [pSum]) with hnone | ⟨k2, hsome⟩
      · rw [hnone]
      · rw [hsome]
        dsimp only
        rw [if_pos (by norm_num : (0 : ℝ) + 500 < 700)]
        cases f with
        | zero =>
          exact itrOuter_zero 700 (0 + 500) (Real.exp (-500)) (3 / 5) inf
            (Real.exp (-500) * 700 ^ k2 / (Nat.factorial k2 : ℝ))
            (Real.exp (-500) * pSum 700 k2) k2 (0 + 500)
        | succ g =>
          show itrOuter 700 (0 + 500) (Real.exp (-500)) (3 / 5) inf (g + 1)
            (Real.exp (-500) * 700 ^ k2 / (Nat.factorial k2 : ℝ))
            (Real.exp (-500) * pSum 700 k2) k2 (0 + 500) = none
          rw [itrOuter_succ, hL2]
          rw [itrInner_no_exit 700 (3 / 5) (Real.exp (-500) * Real.exp (-500))
            chunk_bound_700 inf k2 _ _ (by ring) (by ring)]
  simp only [poisson_itr, rocrand_uniform_double, sItr]
  rw [hmain]

/-- C8: no sampler path casts a negative quantity to unsigned.  Small:
every returned value is `m - 1` for an exit counter `m >= 1`, so the
decrement of the unsigned counter never wraps.  Large: every returned
value is the unsigned cast of a candidate `n` with `0 <= n`, since the
cast happens only after the `n < 0` rejection.  Huge: whenever the
rounded value lies in the unsigned range (as it does for lambda within
the supported approximation range), the returned value equals it, so the
result is the nonnegative rounded quantity itself. -/
theorem sample_poisson_no_negative_cast :
    (∀ (fuel : ℕ) (s : State) (lambda : ℝ),
      poisson_distribution_small fuel s lambda = none ∨
      ∃ m s2, 1 ≤ m ∧
        poisson_distribution_small fuel s lambda = some (m - 1, s2)) ∧
    (∀ (fuel : ℕ) (s : State) (lambda : ℝ),
      poisson_distribution_large fuel s lambda = none ∨
      ∃ (n : ℤ) (s2 : State), 0 ≤ n ∧
        poisson_distribution_large fuel s lambda = some (castU n, s2)) ∧
    (∀ (s : State) (lambda : ℝ),
      0 ≤ round (Real.sqrt lambda * s.normals s.ni + lambda) →
      round (Real.sqrt lambda * s.normals s.ni + lambda) < 4294967296 →
      ((poisson_distribution_huge s lambda).1 : ℤ) =
        round (Real.sqrt lambda * s.normals s.ni + lambda)) := by
  refine ⟨?_, ?_, ?_⟩
  · intro fuel s lambda
    unfold poisson_distribution_small
    exact smallLoop_counter_pos (Real.exp (-lambda)) fuel 1 0 s
  · intro fuel s lambda
    unfold poisson_distribution_large
    dsimp only
    exact largeLoop_nonneg_cast lambda _ _ _ _ _ fuel s
  · intro s lambda h0 hlt
    unfold poisson_distribution_huge rocrand_normal_double castU
    dsimp only
    rw [Int.emod_eq_of_lt h0 hlt, Int.toNat_of_nonneg h0]

/-- Witness for C8: at lambda = 5000 with normal draw 0, the rounded value
5000 is in unsigned range and the Huge-Lambda sampler returns it intact. -/
theorem sample_poisson_no_negative_cast_witness :
    ((poisson_distribution_huge wState 5000).1 : ℤ) =
      round (Real.sqrt 5000 * wState.normals wState.ni + 5000) := by
  have hval : Real.sqrt 5000 * wState.normals wState.ni + 5000 = (5000 : ℝ) := by
    simp [wState]
  refine sample_poisson_no_negative_cast.2.2 wState 5000 ?_ ?_
  · rw [hval, round_ofNat]
    norm_num
  · rw [hval, round_ofNat]
    norm_num

end RocrandPoisson
